import Mathlib

/-!
Verification of the Incremental Response Delivery subsystem of the Zava
chatbot client (`src/frontend/src/components/zava/ZavaChatbot.tsx`).

JS strings are modelled as `List Char` (`Str`); JS numbers used for timing
are modelled as `ℚ` (exact arithmetic; the floating-point rounding the
source inherits from JS is far smaller than any difference at issue in the
claims).  `JSON.parse` is an external platform collaborator and is modelled
as an abstract function `Str → Option Payload`, where a `some` field of the
payload means "field present and truthy" exactly as the source's truthiness
tests (`if (data.error)`, `if (data.content)`, ...) observe it.
-/

namespace ZavaChat

/-- JS strings, modelled as lists of characters. -/
abbrev Str := List Char

/-- Whitespace test used by `String.prototype.trim`. -/
def isWs (c : Char) : Bool := c.isWhitespace

/-- JS `s.trim()`: remove whitespace from both ends (right end first;
the two orders agree). -/
def jsTrim (s : Str) : Str :=
  ((s.reverse.dropWhile isWs).reverse).dropWhile isWs

/-- JS `Array.prototype.join(' ')` on a list of strings. -/
def joinSpace : List Str → Str
  | [] => []
  | w :: ws =>
      match ws with
      | [] => w
      | _ :: _ => w ++ ' ' :: joinSpace ws

/-- JS `response.split(' ')` (line 114): split on every single space,
keeping empty pieces; always returns at least one piece. -/
def splitWords (s : Str) : List Str := s.splitOn ' '

/-- Fuel-indexed worker for `chunksOf`; `fuel ≥ l.length` makes the
slice-by-slice loop of lines 118-120 structurally recursive. -/
def chunksOfAux (C : Nat) : Nat → List α → List (List α)
  | _, [] => []
  | 0, l => [l]
  | fuel + 1, x :: xs =>
      (x :: xs.take (C - 1)) :: chunksOfAux C fuel (xs.drop (C - 1))

/-- The chunking loop of lines 118-120: successive slices
`words.slice(i, i + C)` for `i = 0, C, 2C, ...`.  Faithful to the source
for every `C ≥ 1` (for `C = 0` the source loop does not terminate). -/
def chunksOf (C : Nat) (l : List α) : List (List α) :=
  chunksOfAux C l.length l

/-- Message role (source `Message.role`). -/
inductive Role
  | user
  | assistant
deriving DecidableEq

/-- Source `Message` record (line 14-20).  `timestamp` is an abstract
instant; `modelName` is optional. -/
structure Message where
  id : Str
  role : Role
  content : Str
  timestamp : Nat
  modelName : Option Str
deriving DecidableEq

/-- One `setMessages`-mediated rewrite of the in-flight assistant message.
`content c` is `{ ...msg, content: c }`, `model m` is
`{ ...msg, modelName: m }`, `errorReplace c` is
`{ ...msg, content: c, modelName: undefined }`. -/
inductive Update
  | content (c : Str)
  | model (m : Str)
  | errorReplace (c : Str)
deriving DecidableEq

/-- Apply one update to one message. -/
def applyUpdate : Update → Message → Message
  | .content c, m => { m with content := c }
  | .model name, m => { m with modelName := some name }
  | .errorReplace c, m => { m with content := c, modelName := none }

/-- The `prev.map(msg => msg.id === assistantMessageId ? ... : msg)`
pattern shared by every delivery-time `setMessages` call. -/
def applyToList (targetId : Str) (u : Update) (msgs : List Message) : List Message :=
  msgs.map fun m => if m.id = targetId then applyUpdate u m else m

/-- Apply a sequence of updates in order. -/
def applyAll (targetId : Str) (us : List Update) (msgs : List Message) : List Message :=
  us.foldl (fun ms u => applyToList targetId u ms) msgs

/-- The inputs of `simulateStreamingResponse` that come from one replay
script (`dataToUse`, lines 195-202). -/
structure ReplayScript where
  response : Str
  startDelayMs : ℚ
  totalDurationMs : ℚ
  wordsPerChunk : Nat
  modelName : Str
deriving DecidableEq

/-- One step of the replay run: a timer suspension or a message-store
notification. -/
inductive REvent
  | sleep (ms : ℚ)
  | notify (u : Update)
deriving DecidableEq

/-- The `chunks` array built at lines 114-120: each group of
`wordsPerChunk` words joined with single spaces, plus a trailing space. -/
def replayChunks (s : ReplayScript) : List Str :=
  (chunksOf s.wordsPerChunk (splitWords s.response)).map fun g => joinSpace g ++ [' ']

/-- Line 123: `chunks.length > 1 ? streamingDuration / chunks.length : 0`. -/
def delayPerChunk (s : ReplayScript) : ℚ :=
  if 1 < (replayChunks s).length then
    (s.totalDurationMs - s.startDelayMs) / ((replayChunks s).length : ℚ)
  else 0

/-- The for-loop of lines 127-143: emit the trimmed accumulated content for
each chunk, sleeping `d` between consecutive chunks (not after the last). -/
def chunkLoop (d : ℚ) : List Str → Str → List REvent
  | [], _ => []
  | c :: rest, acc =>
      .notify (.content (jsTrim (acc ++ c))) ::
        match rest with
        | [] => []
        | _ :: _ => .sleep d :: chunkLoop d rest (acc ++ c)

/-- Everything `simulateStreamingResponse` does after the initial delay:
the chunk loop followed by the model-name update of lines 146-152. -/
def replayBody (s : ReplayScript) : List REvent :=
  chunkLoop (delayPerChunk s) (replayChunks s) [] ++
    [.notify (.model s.modelName)]

/-- The full event trace of `simulateStreamingResponse` (lines 103-153). -/
def replayEvents (s : ReplayScript) : List REvent :=
  .sleep s.startDelayMs :: replayBody s

/-- The message-store notifications contained in an event trace. -/
def notifUpdates (evs : List REvent) : List Update :=
  evs.filterMap fun e => match e with | .notify u => some u | .sleep _ => none

/-- The notifications of one replay run. -/
def replayUpdates (s : ReplayScript) : List Update :=
  notifUpdates (replayEvents s)

/-- Number of content-carrying notifications in a trace. -/
def contentNotifCount (evs : List REvent) : Nat :=
  (notifUpdates evs).countP fun u => match u with | .content _ => true | _ => false

/-- Total time spent in timer suspensions of a trace. -/
def sleepSum (evs : List REvent) : ℚ :=
  (evs.map fun e => match e with | .sleep d => d | .notify _ => 0).sum

/-- Sum of the delays between consecutive chunk emissions (the sleeps of
the chunk loop; the initial `startDelayMs` suspension is excluded). -/
def interDelaySum (s : ReplayScript) : ℚ :=
  sleepSum (replayBody s)

/-- The result of `JSON.parse` on a candidate line's payload, as the
source observes it through truthiness tests: a field is `some`/`true`
exactly when it is present and truthy. -/
structure Payload where
  error : Option Str
  content : Option Str
  model : Option Str
  done : Bool
deriving DecidableEq

/-- The fixed marker a candidate event line must start with (line 256). -/
def dataTag : Str := ("data: ").toList

/-- Apology shown by the outer catch (line 316). -/
def apologyNetwork : Str :=
  ("I apologize, but I encountered an error. Please try again later.").toList

/-- Fallback shown when the stream ends with no accumulated content
(line 305). -/
def apologyEmpty : Str :=
  ("I apologize, but I couldn\x27t generate a response. Please try again.").toList

/-- Lines 255-297: handle one line of a decoded fragment.  Returns the new
accumulated content, whether this line set `isDone`, and the notifications
it pushed.  A line without the `data: ` marker is skipped.  A payload the
parser rejects is skipped by the inner catch.  A payload with a truthy
`error` field reaches `throw new Error(data.error)` — which the very same
inner catch swallows, so the line contributes nothing and processing
continues (lines 260-263 and 290-295). -/
def processLine (parse : Str → Option Payload) (acc : Str) (line : Str) :
    Str × Bool × List Update :=
  if dataTag.isPrefixOf line then
    match parse (line.drop 6) with
    | none => (acc, false, [])
    | some p =>
      match p.error with
      | some _ => (acc, false, [])
      | none =>
        let step :=
          match p.content with
          | some c => (acc ++ c, [Update.content (acc ++ c)])
          | none => (acc, [])
        let modelUps :=
          match p.model with
          | some m => [Update.model m]
          | none => []
        (step.1, p.done, step.2 ++ modelUps)
  else (acc, false, [])

/-- The `for (const line of lines)` loop: every line of a fragment is
processed, even after `isDone` becomes true mid-fragment. -/
def processLines (parse : Str → Option Payload) (acc : Str) (done : Bool) :
    List Str → Str × Bool × List Update
  | [] => (acc, done, [])
  | l :: ls =>
      let r := processLine parse acc l
      let rest := processLines parse r.1 (done || r.2.1) ls
      (rest.1, rest.2.1, r.2.2 ++ rest.2.2)

/-- The `while (!isDone)` read loop (lines 247-298): each fragment is
decoded and split on newlines independently — there is no buffering of a
partial trailing line across fragments.  When `isDone` is already set the
loop exits and remaining fragments are never read. -/
def processFrags (parse : Str → Option Payload) (acc : Str) (done : Bool) :
    List Str → Str × List Update
  | [] => (acc, [])
  | f :: fs =>
      if done then (acc, [])
      else
        let r := processLines parse acc false (f.splitOn '\n')
        let rest := processFrags parse r.1 r.2.1 fs
        (rest.1, r.2.2 ++ rest.2)

/-- The live branch of `handleSendMessage` (lines 219-322): a non-success
status or unreadable body throws into the outer catch, producing the single
fixed-apology replacement; otherwise the fragments are processed and, if no
content was ever accumulated, the empty-result replacement is appended. -/
def liveUpdates (parse : Str → Option Payload) (ok readable : Bool)
    (frags : List Str) : List Update :=
  if ok && readable then
    let r := processFrags parse [] false frags
    if r.1 = [] then r.2 ++ [Update.errorReplace apologyEmpty]
    else r.2
  else [Update.errorReplace apologyNetwork]

/-- Number of content-carrying notifications in an update list. -/
def contentUpdateCount (us : List Update) : Nat :=
  us.countP fun u => match u with | .content _ => true | _ => false

/-- A lookup-table stand-in for `JSON.parse` on the finitely many payload
texts a concrete test stream contains; any other text is unparseable. -/
def parseTable (tbl : List (Str × Payload)) : Str → Option Payload :=
  fun s => (tbl.find? fun p => p.1 == s).map fun p => p.2

/-- `Date.now()`-style numeric ids rendered to strings (line 163). -/
def idOfNat (n : Nat) : Str := (Nat.repr n).toList

/-- The greeting message the component starts from (lines 30-37). -/
def greeting : Str :=
  ("Hi! I\x27m the Zava AI assistant. I can help you with questions about our smart sportswear technology, products, and performance tracking. How can I help you today?").toList

/-- `initialMessages` (lines 30-37): one assistant message with id `"1"`. -/
def initialMessages (ts : Nat) : List Message :=
  [⟨['1'], .assistant, greeting, ts, none⟩]

/-- Mode selector (`modelType`). -/
inductive ModelMode
  | router
  | benchmark
deriving DecidableEq

/-- The component state touched by submission and reset. -/
structure AppState where
  messages : List Message
  inputValue : Str
  isLoading : Bool
  modelType : ModelMode
  showSuggestions : Bool
deriving DecidableEq

/-- `handleReset` (lines 64-70). -/
def handleReset (ts : Nat) (_st : AppState) : AppState :=
  { messages := initialMessages ts
    inputValue := []
    isLoading := false
    modelType := .router
    showSuggestions := true }

/-- Line 156: `customMessage || inputValue.trim()` — an absent or empty
custom message falls back to the trimmed input; a non-empty custom message
is used untrimmed. -/
def effectiveMessage (customMessage : Option Str) (input : Str) : Str :=
  match customMessage with
  | some c => if c = [] then jsTrim input else c
  | none => jsTrim input

/-- The user message created at lines 162-167. -/
def userMessageAt (text : Str) (now : Nat) : Message :=
  ⟨idOfNat now, .user, text, now, none⟩

/-- The placeholder assistant message created at lines 174-180. -/
def placeholderAt (now : Nat) : Message :=
  ⟨idOfNat (now + 1), .assistant, [], now, none⟩

/-- The guard and state mutations of `handleSendMessage` before any
network or timer activity (lines 155-181).  Returns the new state and,
when the submission is accepted, the placeholder id of the delivery that
then begins; a rejected submission returns the state unchanged and no
delivery. -/
def submitPhase (st : AppState) (customMessage : Option Str) (now : Nat) :
    AppState × Option Str :=
  let msg := effectiveMessage customMessage st.inputValue
  if msg = [] || st.isLoading then (st, none)
  else
    ({ st with
        messages := (st.messages ++ [userMessageAt msg now]) ++ [placeholderAt now]
        inputValue := []
        isLoading := true
        showSuggestions := false },
      some (idOfNat (now + 1)))

/-- Applying the notifications of an in-flight run to the component state:
timer suspensions do not touch state; each notification rewrites only the
message with the run's placeholder id. -/
def runPendingEvents (targetId : Str) (evs : List REvent) (st : AppState) :
    AppState :=
  { st with messages := applyAll targetId (notifUpdates evs) st.messages }

/-- The content notifications of the chunk loop, in order (specification
of the `.notify` events of `chunkLoop`, used to reason about them). -/
def chunkContents : List Str → Str → List Update
  | [], _ => []
  | c :: rest, acc => .content (jsTrim (acc ++ c)) :: chunkContents rest (acc ++ c)

/-! ### Concrete inputs used by witnesses and counterexamples -/

/-- A candidate event line: the `data: ` marker, a payload, a newline. -/
def dLine (p : Str) : Str := dataTag ++ p ++ ['\n']

def jsonModel : Str := ("\x7b\"model\":\"gpt-4\"\x7d").toList

def jsonHi : Str := ("\x7b\"content\":\"Hi\"\x7d").toList

def jsonDone : Str := ("\x7b\"done\":true\x7d").toList

def jsonErr : Str := ("\x7b\"error\":\"boom\"\x7d").toList

/-- The front part of `jsonHi` when the line is cut mid-payload. -/
def jsonHiFront : Str := ("\x7b\"content\":\"Hi").toList

/-- The rest of the cut payload, with the line's newline. -/
def jsonHiBack : Str := ("\"\x7d\n").toList

def payloadModel : Payload := ⟨none, none, some (("gpt-4").toList), false⟩

def payloadHi : Payload := ⟨none, some (("Hi").toList), none, false⟩

def payloadDone : Payload := ⟨none, none, none, true⟩

def payloadErr : Payload := ⟨some (("boom").toList), none, none, false⟩

/-- `JSON.parse` restricted to the payloads of the concrete test streams. -/
def parseLive : Str → Option Payload :=
  parseTable [(jsonModel, payloadModel), (jsonHi, payloadHi),
    (jsonDone, payloadDone), (jsonErr, payloadErr)]

/-- Words of the witness reply text `"a b c"`. -/
def c1ws : List Str := [['a'], ['b'], ['c']]

/-- Witness script: text `"a b c"`, two words per chunk. -/
def c1s : ReplayScript := ⟨joinSpace c1ws, 100, 300, 2, ['m']⟩

/-- Counterexample script: text `" a"` (leading space), word count 1. -/
def c1cex : ReplayScript := ⟨(' ' :: ['a']), 0, 0, 1, ['m']⟩

/-- Two-chunk script: text `"a b"`, one word per chunk, 200 ms of
streaming after a zero start delay. -/
def c2s : ReplayScript := ⟨('a' :: ' ' :: ['b']), 0, 200, 1, ['m']⟩

/-- One-chunk script, used to instantiate replay-side statements. -/
def c3s : ReplayScript := ⟨['a'], 0, 0, 1, ['m']⟩

/-- Empty-text script. -/
def c8s : ReplayScript := ⟨[], 0, 0, 1, ['m']⟩

/-- Two-chunk script interrupted by a reset in the counterexample. -/
def c9s : ReplayScript := ⟨('a' :: ' ' :: ['b']), 0, 200, 1, ['m']⟩

/-- A state with a delivery in flight. -/
def c5busy : AppState := ⟨initialMessages 0, ("hi").toList, true, .router, true⟩

/-- An idle state ready to accept a submission. -/
def c5open : AppState := ⟨initialMessages 0, [], false, .router, true⟩

example : splitWords [] = [[]] := by decide
example : splitWords ('a' :: ' ' :: ['b']) = [['a'], ['b']] := by decide
example : chunksOf 2 [1, 2, 3, 4, 5] = [[1, 2], [3, 4], [5]] := by decide
example : jsTrim (' ' :: 'a' :: 'b' :: [' ']) = ['a', 'b'] := by decide
example :
    replayChunks ⟨('a' :: ' ' :: 'b' :: ' ' :: ['c']), 0, 200, 2, ['m']⟩ =
      [('a' :: ' ' :: 'b' :: [' ']), ('c' :: [' '])] := by decide
example :
    replayUpdates ⟨('a' :: ' ' :: ['b']), 0, 200, 1, ['m']⟩ =
      [.content ['a'], .content ('a' :: ' ' :: ['b']), .model ['m']] := by
  decide

example :
    liveUpdates
      (parseTable [(("p1").toList, ⟨none, some (("Hi").toList), none, false⟩),
        (("p2").toList, ⟨none, none, none, true⟩)])
      true true [(("data: p1\ndata: p2\n").toList)] =
      [.content (("Hi").toList)] := by decide

example :
    liveUpdates (fun _ => none) false true [] =
      [.errorReplace apologyNetwork] := by decide

example :
    liveUpdates (fun _ => none) true true [] =
      [.errorReplace apologyEmpty] := by decide

/-! ### Helper lemmas: chunking -/

theorem chunksOfAux_congr (C : Nat) :
    ∀ (f₁ f₂ : Nat) (l : List α), l.length ≤ f₁ → l.length ≤ f₂ →
      chunksOfAux C f₁ l = chunksOfAux C f₂ l := by
  intro f₁
  induction f₁ with
  | zero =>
    intro f₂ l h₁ _
    have : l = [] := List.eq_nil_of_length_eq_zero (Nat.le_zero.mp h₁)
    subst this
    cases f₂ <;> rfl
  | succ f ih =>
    intro f₂ l h₁ h₂
    cases l with
    | nil => cases f₂ <;> rfl
    | cons x xs =>
      cases f₂ with
      | zero => exact absurd h₂ (by simp)
      | succ f' =>
        simp only [chunksOfAux]
        congr 1
        have hd : (xs.drop (C - 1)).length ≤ xs.length := by
          rw [List.length_drop]; omega
        simp only [List.length_cons] at h₁ h₂
        exact ih f' (xs.drop (C - 1)) (by omega) (by omega)

theorem chunksOf_nil (C : Nat) : chunksOf C ([] : List α) = [] := rfl

theorem chunksOf_cons (C : Nat) (x : α) (xs : List α) :
    chunksOf C (x :: xs) = (x :: xs.take (C - 1)) :: chunksOf C (xs.drop (C - 1)) := by
  simp only [chunksOf, List.length_cons, chunksOfAux]
  congr 1
  exact chunksOfAux_congr C xs.length (xs.drop (C - 1)).length (xs.drop (C - 1))
    (by rw [List.length_drop]; omega) le_rfl

theorem chunksOf_length (C : Nat) (hC : 1 ≤ C) :
    ∀ (n : Nat) (l : List α), l.length ≤ n →
      (chunksOf C l).length = (l.length + C - 1) / C := by
  intro n
  induction n with
  | zero =>
    intro l h
    have : l = [] := List.eq_nil_of_length_eq_zero (Nat.le_zero.mp h)
    subst this
    simp only [chunksOf_nil, List.length_nil]
    rw [Nat.div_eq_of_lt (by omega)]
  | succ n ih =>
    intro l h
    cases l with
    | nil =>
      simp only [chunksOf_nil, List.length_nil]
      rw [Nat.div_eq_of_lt (by omega)]
    | cons x xs =>
      rw [chunksOf_cons]
      have hdrop : (xs.drop (C - 1)).length ≤ n := by
        rw [List.length_drop]
        simp only [List.length_cons] at h
        omega
      rw [List.length_cons, ih (xs.drop (C - 1)) hdrop]
      rw [List.length_drop]
      rcases le_or_lt (C - 1) xs.length with hle | hlt
      · have h1 : xs.length - (C - 1) + C - 1 = xs.length := by omega
        have h2 : xs.length + 1 + C - 1 = xs.length + C := by omega
        simp only [List.length_cons]
        rw [h1, h2, Nat.add_div_right _ (by omega)]
      · have h1 : xs.length - (C - 1) = 0 := by omega
        have h2 : xs.length + 1 + C - 1 = xs.length + C := by omega
        simp only [List.length_cons]
        rw [h1, h2, Nat.add_div_right _ (by omega)]
        rw [Nat.div_eq_of_lt (by omega), Nat.div_eq_of_lt (by omega)]

theorem chunksOf_mem_ne_nil (C : Nat) :
    ∀ (n : Nat) (l : List α), l.length ≤ n →
      ∀ g ∈ chunksOf C l, g ≠ [] := by
  intro n
  induction n with
  | zero =>
    intro l h
    have : l = [] := List.eq_nil_of_length_eq_zero (Nat.le_zero.mp h)
    subst this
    simp [chunksOf_nil]
  | succ n ih =>
    intro l h g hg
    cases l with
    | nil => simp [chunksOf_nil] at hg
    | cons x xs =>
      rw [chunksOf_cons] at hg
      rcases List.mem_cons.mp hg with h1 | h2
      · subst h1; simp
      · refine ih (xs.drop (C - 1)) ?_ g h2
        rw [List.length_drop]
        simp only [List.length_cons] at h
        omega

/-! ### Helper lemmas: joinSpace -/

theorem joinSpace_cons (w : Str) (ws : List Str) (h : ws ≠ []) :
    joinSpace (w :: ws) = w ++ ' ' :: joinSpace ws := by
  cases ws with
  | nil => exact absurd rfl h
  | cons a l => rfl

theorem joinSpace_ne_nil (ws : List Str) (hne : ws ≠ [])
    (hw : ∀ w ∈ ws, w ≠ []) : joinSpace ws ≠ [] := by
  cases ws with
  | nil => exact absurd rfl hne
  | cons w rest =>
    cases rest with
    | nil => exact hw w (by simp)
    | cons a l =>
      rw [joinSpace_cons _ _ (by simp)]
      simp

theorem joinSpace_append (a b : List Str) (ha : a ≠ []) (hb : b ≠ []) :
    joinSpace (a ++ b) = joinSpace a ++ ' ' :: joinSpace b := by
  induction a with
  | nil => exact absurd rfl ha
  | cons w a' ih =>
    cases a' with
    | nil =>
      rw [List.singleton_append, joinSpace_cons _ _ hb]
      rfl
    | cons v a'' =>
      rw [List.cons_append, joinSpace_cons _ _ (by simp),
        joinSpace_cons _ _ (by simp), ih (by simp)]
      simp

theorem joinSpace_eq_intercalate (ws : List Str) :
    joinSpace ws = List.intercalate [' '] ws := by
  induction ws with
  | nil => rfl
  | cons w rest ih =>
    cases rest with
    | nil => simp [joinSpace, List.intercalate]
    | cons v rest' =>
      rw [joinSpace_cons _ _ (by simp), ih]
      simp [List.intercalate]

theorem splitWords_joinSpace (ws : List Str) (hne : ws ≠ [])
    (hw : ∀ w ∈ ws, ' ' ∉ w) : splitWords (joinSpace ws) = ws := by
  rw [joinSpace_eq_intercalate]
  exact List.splitOn_intercalate ws ' ' hw hne

/-! ### Helper lemmas: jsTrim -/

theorem dropWhile_eq_self_of_head (p : Char → Bool) :
    ∀ (l : Str), (∀ c, l.head? = some c → p c = false) → l.dropWhile p = l := by
  intro l h
  cases l with
  | nil => rfl
  | cons x xs => simp [List.dropWhile_cons, h x rfl]

theorem jsTrim_append_space (s : Str) : jsTrim (s ++ [' ']) = jsTrim s := by
  simp only [jsTrim, List.reverse_append, List.reverse_cons, List.reverse_nil,
    List.nil_append, List.singleton_append]
  rw [List.dropWhile_cons]
  simp [isWs]

theorem jsTrim_eq_self (s : Str)
    (h1 : ∀ c, s.head? = some c → isWs c = false)
    (h2 : ∀ c, s.reverse.head? = some c → isWs c = false) :
    jsTrim s = s := by
  unfold jsTrim
  rw [dropWhile_eq_self_of_head isWs s.reverse h2, List.reverse_reverse,
    dropWhile_eq_self_of_head isWs s h1]

/-- A word list all of whose words are nonempty and contain no whitespace
characters: the shape of a space-normalized reply text. -/
def NormalWords (ws : List Str) : Prop :=
  ws ≠ [] ∧ ∀ w ∈ ws, w ≠ [] ∧ ∀ c ∈ w, isWs c = false

theorem joinSpace_head? (w : Str) (ws : List Str) (hw : w ≠ []) :
    (joinSpace (w :: ws)).head? = w.head? := by
  cases ws with
  | nil => rfl
  | cons v rest =>
    rw [joinSpace_cons _ _ (by simp)]
    cases w with
    | nil => exact absurd rfl hw
    | cons c cs => rfl

theorem joinSpace_reverse_head? :
    ∀ (ws : List Str), ws ≠ [] → (∀ w ∈ ws, w ≠ []) →
      ∃ w, ws.getLast? = some w ∧
        (joinSpace ws).reverse.head? = w.reverse.head? := by
  intro ws
  induction ws with
  | nil => intro h; exact absurd rfl h
  | cons w rest ih =>
    intro _ hw
    cases rest with
    | nil => exact ⟨w, rfl, rfl⟩
    | cons v rest' =>
      obtain ⟨u, hu1, hu2⟩ :=
        ih (by simp) (fun x hx => hw x (List.mem_cons_of_mem _ hx))
      refine ⟨u, ?_, ?_⟩
      · rw [List.getLast?_cons_cons]; exact hu1
      · rw [joinSpace_cons _ _ (by simp), List.reverse_append,
          List.reverse_cons]
        have hne : (joinSpace (v :: rest')).reverse ≠ [] := by
          simp only [ne_eq, List.reverse_eq_nil_iff]
          exact joinSpace_ne_nil _ (by simp)
            (fun x hx => hw x (List.mem_cons_of_mem _ hx))
        cases hrev : (joinSpace (v :: rest')).reverse with
        | nil => exact absurd hrev hne
        | cons c cs =>
          rw [hrev] at hu2
          simp only [List.cons_append, List.head?_cons]
          exact hu2

theorem mem_of_getLast?_eq (l : List Str) (u : Str) (h : l.getLast? = some u) :
    u ∈ l := by
  induction l with
  | nil => simp at h
  | cons x xs ih =>
    cases xs with
    | nil =>
      simp only [List.getLast?_singleton, Option.some_inj] at h
      simp [h]
    | cons y ys =>
      rw [List.getLast?_cons_cons] at h
      exact List.mem_cons_of_mem _ (ih h)

theorem jsTrim_joinSpace (ws : List Str) (h : NormalWords ws) :
    jsTrim (joinSpace ws) = joinSpace ws := by
  obtain ⟨hne, hw⟩ := h
  cases ws with
  | nil => exact absurd rfl hne
  | cons w rest =>
    refine jsTrim_eq_self _ ?_ ?_
    · intro c hc
      rw [joinSpace_head? w rest (hw w (by simp)).1] at hc
      exact (hw w (by simp)).2 c (List.mem_of_mem_head? hc)
    · intro c hc
      obtain ⟨u, hu1, hu2⟩ :=
        joinSpace_reverse_head? (w :: rest) (by simp) (fun x hx => (hw x hx).1)
      rw [hu2] at hc
      have hcu : c ∈ u := List.mem_reverse.mp (List.mem_of_mem_head? hc)
      have humem : u ∈ w :: rest := mem_of_getLast?_eq _ _ hu1
      exact (hw u humem).2 c hcu

/-! ### Helper lemmas: the chunk loop -/

theorem chunkContents_cons (c : Str) (rest : List Str) (acc : Str) :
    chunkContents (c :: rest) acc =
      .content (jsTrim (acc ++ c)) :: chunkContents rest (acc ++ c) := rfl

theorem chunkLoop_singleton (d : ℚ) (c acc : Str) :
    chunkLoop d [c] acc = [.notify (.content (jsTrim (acc ++ c)))] := rfl

theorem chunkLoop_cons_cons (d : ℚ) (c c' : Str) (rest : List Str) (acc : Str) :
    chunkLoop d (c :: c' :: rest) acc =
      .notify (.content (jsTrim (acc ++ c))) :: .sleep d ::
        chunkLoop d (c' :: rest) (acc ++ c) := rfl

theorem notifUpdates_cons_notify (u : Update) (evs : List REvent) :
    notifUpdates (.notify u :: evs) = u :: notifUpdates evs := rfl

theorem notifUpdates_cons_sleep (q : ℚ) (evs : List REvent) :
    notifUpdates (.sleep q :: evs) = notifUpdates evs := rfl

theorem notifUpdates_append (a b : List REvent) :
    notifUpdates (a ++ b) = notifUpdates a ++ notifUpdates b := by
  simp [notifUpdates, List.filterMap_append]

theorem notifUpdates_chunkLoop (d : ℚ) :
    ∀ (chunks : List Str) (acc : Str),
      notifUpdates (chunkLoop d chunks acc) = chunkContents chunks acc := by
  intro chunks
  induction chunks with
  | nil => intro acc; rfl
  | cons c rest ih =>
    intro acc
    cases rest with
    | nil => rfl
    | cons c' rest' =>
      rw [chunkLoop_cons_cons, notifUpdates_cons_notify, notifUpdates_cons_sleep,
        ih (acc ++ c)]
      rfl

theorem chunkContents_length :
    ∀ (chunks : List Str) (acc : Str),
      (chunkContents chunks acc).length = chunks.length := by
  intro chunks
  induction chunks with
  | nil => intro acc; rfl
  | cons c rest ih => intro acc; simp [chunkContents, ih]

theorem chunkContents_mem :
    ∀ (chunks : List Str) (acc : Str) (u : Update),
      u ∈ chunkContents chunks acc → ∃ s, u = .content s := by
  intro chunks
  induction chunks with
  | nil => intro acc u h; simp [chunkContents] at h
  | cons c rest ih =>
    intro acc u h
    rcases List.mem_cons.mp h with h1 | h2
    · exact ⟨jsTrim (acc ++ c), h1⟩
    · exact ih (acc ++ c) u h2

theorem foldl_chunkContents :
    ∀ (chunks : List Str) (msg : Message) (acc : Str), chunks ≠ [] →
      (chunkContents chunks acc).foldl (fun m u => applyUpdate u m) msg =
        { msg with content := jsTrim (acc ++ chunks.flatten) } := by
  intro chunks
  induction chunks with
  | nil => intro msg acc h; exact absurd rfl h
  | cons c rest ih =>
    intro msg acc _
    cases rest with
    | nil =>
      simp [chunkContents, applyUpdate]
    | cons c' rest' =>
      rw [chunkContents_cons, List.foldl_cons]
      rw [ih (applyUpdate (.content (jsTrim (acc ++ c))) msg) (acc ++ c) (by simp)]
      simp [applyUpdate, List.append_assoc]

theorem sleepSum_append (a b : List REvent) :
    sleepSum (a ++ b) = sleepSum a + sleepSum b := by
  simp [sleepSum]

theorem sleepSum_cons_notify (u : Update) (evs : List REvent) :
    sleepSum (.notify u :: evs) = sleepSum evs := by
  simp [sleepSum]

theorem sleepSum_cons_sleep (q : ℚ) (evs : List REvent) :
    sleepSum (.sleep q :: evs) = q + sleepSum evs := by
  simp [sleepSum]

theorem sleepSum_chunkLoop (d : ℚ) :
    ∀ (chunks : List Str) (acc : Str),
      sleepSum (chunkLoop d chunks acc) = ((chunks.length - 1 : Nat) : ℚ) * d := by
  intro chunks
  induction chunks with
  | nil => intro acc; simp [chunkLoop, sleepSum]
  | cons c rest ih =>
    intro acc
    cases rest with
    | nil => simp [chunkLoop_singleton, sleepSum]
    | cons c' rest' =>
      rw [chunkLoop_cons_cons, sleepSum_cons_notify, sleepSum_cons_sleep,
        ih (acc ++ c)]
      simp only [List.length_cons, Nat.add_sub_cancel]
      push_cast
      ring

/-! ### Helper lemmas: the chunk partition reassembles the text -/

theorem joinSpace_chunksOf (C : Nat) :
    ∀ (n : Nat) (l : List Str), l.length ≤ n →
      joinSpace ((chunksOf C l).map joinSpace) = joinSpace l := by
  intro n
  induction n with
  | zero =>
    intro l h
    have : l = [] := List.eq_nil_of_length_eq_zero (Nat.le_zero.mp h)
    subst this; rfl
  | succ n ih =>
    intro l h
    cases l with
    | nil => rfl
    | cons x xs =>
      rw [chunksOf_cons]
      by_cases hd : xs.drop (C - 1) = []
      · have hx : xs.take (C - 1) = xs := by
          have := List.take_append_drop (C - 1) xs
          rw [hd, List.append_nil] at this
          exact this
        rw [hd, chunksOf_nil, List.map_cons, List.map_nil, hx]
        rfl
      · have hrest : chunksOf C (xs.drop (C - 1)) ≠ [] := by
          cases hdd : xs.drop (C - 1) with
          | nil => exact absurd hdd hd
          | cons y ys => rw [chunksOf_cons]; simp
        have hmap : (chunksOf C (xs.drop (C - 1))).map joinSpace ≠ [] := by
          cases hme : chunksOf C (xs.drop (C - 1)) with
          | nil => exact absurd hme hrest
          | cons g gs => simp
        have hlen : (xs.drop (C - 1)).length ≤ n := by
          rw [List.length_drop]
          simp only [List.length_cons] at h
          omega
        rw [List.map_cons, joinSpace_cons _ _ hmap, ih (xs.drop (C - 1)) hlen,
          ← joinSpace_append (x :: xs.take (C - 1)) (xs.drop (C - 1)) (by simp) hd,
          List.cons_append, List.take_append_drop]

theorem flatten_spaceChunks (C : Nat) :
    ∀ (n : Nat) (l : List Str), l.length ≤ n → l ≠ [] →
      ((chunksOf C l).map fun g => joinSpace g ++ [' ']).flatten =
        joinSpace l ++ [' '] := by
  intro n
  induction n with
  | zero =>
    intro l h hne
    have : l = [] := List.eq_nil_of_length_eq_zero (Nat.le_zero.mp h)
    exact absurd this hne
  | succ n ih =>
    intro l h hne
    cases l with
    | nil => exact absurd rfl hne
    | cons x xs =>
      rw [chunksOf_cons]
      by_cases hd : xs.drop (C - 1) = []
      · have hx : xs.take (C - 1) = xs := by
          have := List.take_append_drop (C - 1) xs
          rw [hd, List.append_nil] at this
          exact this
        rw [hd, chunksOf_nil, List.map_cons, List.map_nil, hx]
        simp
      · have hlen : (xs.drop (C - 1)).length ≤ n := by
          rw [List.length_drop]
          simp only [List.length_cons] at h
          omega
        rw [List.map_cons, List.flatten_cons, ih (xs.drop (C - 1)) hlen hd]
        have step :
            (joinSpace (x :: xs.take (C - 1)) ++ [' ']) ++
                (joinSpace (xs.drop (C - 1)) ++ [' ']) =
              (joinSpace (x :: xs.take (C - 1)) ++
                ' ' :: joinSpace (xs.drop (C - 1))) ++ [' '] := by
          simp [List.append_assoc]
        rw [step, ← joinSpace_append (x :: xs.take (C - 1)) (xs.drop (C - 1))
          (by simp) hd, List.cons_append, List.take_append_drop]

/-! ### Helper lemmas: message-list updates -/

theorem applyAll_nil (targetId : Str) (msgs : List Message) :
    applyAll targetId [] msgs = msgs := rfl

theorem applyAll_cons (targetId : Str) (u : Update) (us : List Update)
    (msgs : List Message) :
    applyAll targetId (u :: us) msgs =
      applyAll targetId us (applyToList targetId u msgs) := rfl

theorem applyToList_length (targetId : Str) (u : Update) (msgs : List Message) :
    (applyToList targetId u msgs).length = msgs.length := by
  simp [applyToList]

theorem applyAll_length (targetId : Str) :
    ∀ (us : List Update) (msgs : List Message),
      (applyAll targetId us msgs).length = msgs.length := by
  intro us
  induction us with
  | nil => intro msgs; rfl
  | cons u us ih =>
    intro msgs
    rw [applyAll_cons, ih, applyToList_length]

theorem applyToList_getElem?_ne (targetId : Str) (u : Update)
    (msgs : List Message) (i : Nat) (m : Message)
    (h : msgs[i]? = some m) (hid : m.id ≠ targetId) :
    (applyToList targetId u msgs)[i]? = some m := by
  simp [applyToList, List.getElem?_map, h, hid]

theorem applyAll_getElem?_ne (targetId : Str) :
    ∀ (us : List Update) (msgs : List Message) (i : Nat) (m : Message),
      msgs[i]? = some m → m.id ≠ targetId →
      (applyAll targetId us msgs)[i]? = some m := by
  intro us
  induction us with
  | nil => intro msgs i m h _; exact h
  | cons u us ih =>
    intro msgs i m h hid
    rw [applyAll_cons]
    exact ih (applyToList targetId u msgs) i m
      (applyToList_getElem?_ne targetId u msgs i m h hid) hid

theorem applyToList_id (targetId : Str) (u : Update) (msgs : List Message)
    (h : ∀ m ∈ msgs, m.id ≠ targetId) :
    applyToList targetId u msgs = msgs := by
  induction msgs with
  | nil => rfl
  | cons x xs ih =>
    simp only [applyToList, List.map_cons]
    rw [if_neg (h x (by simp))]
    have hxs := ih fun m hm => h m (List.mem_cons_of_mem _ hm)
    simp only [applyToList] at hxs
    rw [hxs]

theorem applyAll_id (targetId : Str) :
    ∀ (us : List Update) (msgs : List Message),
      (∀ m ∈ msgs, m.id ≠ targetId) →
      applyAll targetId us msgs = msgs := by
  intro us
  induction us with
  | nil => intro msgs _; rfl
  | cons u us ih =>
    intro msgs h
    rw [applyAll_cons, applyToList_id targetId u msgs h, ih msgs h]

/-! ### Helper lemmas: whole replay runs -/

theorem replayChunks_ne_nil (s : ReplayScript) : replayChunks s ≠ [] := by
  unfold replayChunks
  have hsw : splitWords s.response ≠ [] := List.splitOnP_ne_nil _ _
  cases hs : splitWords s.response with
  | nil => exact absurd hs hsw
  | cons w ws => rw [chunksOf_cons]; simp

theorem replayUpdates_eq (s : ReplayScript) :
    replayUpdates s =
      chunkContents (replayChunks s) [] ++ [.model s.modelName] := by
  unfold replayUpdates replayEvents replayBody
  rw [notifUpdates_cons_sleep, notifUpdates_append, notifUpdates_chunkLoop]
  rfl

theorem foldl_replayUpdates (s : ReplayScript) (msg : Message) :
    (replayUpdates s).foldl (fun m u => applyUpdate u m) msg =
      { msg with content := jsTrim (replayChunks s).flatten
                 modelName := some s.modelName } := by
  rw [replayUpdates_eq, List.foldl_append,
    foldl_chunkContents (replayChunks s) msg [] (replayChunks_ne_nil s)]
  simp [applyUpdate]

theorem interDelaySum_eq (s : ReplayScript) :
    interDelaySum s =
      (((replayChunks s).length - 1 : Nat) : ℚ) * delayPerChunk s := by
  unfold interDelaySum replayBody
  rw [sleepSum_append, sleepSum_chunkLoop]
  simp [sleepSum]

theorem contentNotifCount_replay (s : ReplayScript) :
    contentNotifCount (replayEvents s) = (replayChunks s).length := by
  unfold contentNotifCount
  have h1 : notifUpdates (replayEvents s) = replayUpdates s := rfl
  rw [h1, replayUpdates_eq, List.countP_append]
  have h2 : ∀ (chunks : List Str) (acc : Str),
      (chunkContents chunks acc).countP
        (fun u => match u with | .content _ => true | _ => false) =
        chunks.length := by
    intro chunks
    induction chunks with
    | nil => intro acc; rfl
    | cons c rest ih =>
      intro acc
      rw [chunkContents_cons, List.countP_cons]
      simp [ih (acc ++ c)]
  rw [h2]
  simp [List.countP_cons]

/-! ### Claim theorems -/

/-- C1 (amended): for every space-normalized nonempty reply text of W words
and every `wordsPerChunk ≥ 1`, the replay run emits exactly ⌈W/C⌉
ContentChunk notifications, the chunk word groups joined by single spaces
reconstruct `fullText` exactly once, and the message produced by the run
carries exactly `fullText` as its content.  (As literally stated the claim
fails for texts that are not space-normalized — see the counterexample —
which is the only restriction added here.) -/
theorem replay_chunk_partition (s : ReplayScript) (ws : List Str)
    (hC : 1 ≤ s.wordsPerChunk) (hresp : s.response = joinSpace ws)
    (hws : NormalWords ws) :
    (replayChunks s).length =
      (ws.length + s.wordsPerChunk - 1) / s.wordsPerChunk
    ∧ contentNotifCount (replayEvents s) =
      (ws.length + s.wordsPerChunk - 1) / s.wordsPerChunk
    ∧ joinSpace ((chunksOf s.wordsPerChunk (splitWords s.response)).map
        joinSpace) = s.response
    ∧ ∀ msg : Message,
        ((replayUpdates s).foldl (fun x u => applyUpdate u x) msg).content =
          s.response := by
  have hnosp : ∀ w ∈ ws, ' ' ∉ w := by
    intro w hw hmem
    have := (hws.2 w hw).2 ' ' hmem
    simp [isWs] at this
  have hsplit : splitWords s.response = ws := by
    rw [hresp]
    exact splitWords_joinSpace ws hws.1 hnosp
  have hlen : (replayChunks s).length =
      (ws.length + s.wordsPerChunk - 1) / s.wordsPerChunk := by
    unfold replayChunks
    rw [hsplit, List.length_map]
    exact chunksOf_length s.wordsPerChunk hC ws.length ws le_rfl
  refine ⟨hlen, ?_, ?_, ?_⟩
  · rw [contentNotifCount_replay]
    exact hlen
  · rw [hsplit, joinSpace_chunksOf s.wordsPerChunk ws.length ws le_rfl, hresp]
  · intro msg
    rw [foldl_replayUpdates]
    show jsTrim (replayChunks s).flatten = s.response
    unfold replayChunks
    rw [hsplit,
      flatten_spaceChunks s.wordsPerChunk ws.length ws le_rfl hws.1,
      jsTrim_append_space, jsTrim_joinSpace ws hws, hresp]

/-- C1 witness: the script with text `"a b c"` and two words per chunk
produces ⌈3/2⌉ = 2 chunk notifications and ends with content `"a b c"`. -/
theorem replay_chunk_partition_witness :
    (replayChunks c1s).length = 2
    ∧ ((replayUpdates c1s).foldl (fun x u => applyUpdate u x)
        (placeholderAt 0)).content = c1s.response := by
  have h := replay_chunk_partition c1s c1ws (by decide) rfl
    (by constructor <;> decide)
  refine ⟨?_, h.2.2.2 (placeholderAt 0)⟩
  rw [h.1]
  decide

/-- C1 counterexample: for `fullText = " a"` (word count 1, one word per
chunk) the code emits 2 content notifications instead of ⌈1/1⌉ = 1, and the
final content is `"a"`, not the original `" a"`. -/
theorem replay_chunk_partition_cex :
    contentNotifCount (replayEvents c1cex) = 2
    ∧ ((replayUpdates c1cex).foldl (fun x u => applyUpdate u x)
        (placeholderAt 2)).content = ['a']
    ∧ c1cex.response ≠ ['a'] := by
  refine ⟨?_, ?_, by decide⟩ <;> decide

/-- C2 (amended): when the run has N > 1 chunks the per-gap delay is
`(totalDurationMs - startDelayMs) / N` and the sum of the N−1 inter-chunk
delays is `(N−1)·(totalDurationMs − startDelayMs)/N` — not the full
`totalDurationMs − startDelayMs` the claim states; when N ≤ 1 the
inter-chunk delay sum is zero. -/
theorem replay_delay_distribution (s : ReplayScript) :
    (1 < (replayChunks s).length →
      delayPerChunk s =
        (s.totalDurationMs - s.startDelayMs) / ((replayChunks s).length : ℚ)
      ∧ interDelaySum s =
        (((replayChunks s).length - 1 : Nat) : ℚ) *
          ((s.totalDurationMs - s.startDelayMs) /
            ((replayChunks s).length : ℚ)))
    ∧ ((replayChunks s).length ≤ 1 → interDelaySum s = 0) := by
  constructor
  · intro h
    have hd : delayPerChunk s =
        (s.totalDurationMs - s.startDelayMs) /
          ((replayChunks s).length : ℚ) := by
      unfold delayPerChunk
      rw [if_pos h]
    exact ⟨hd, by rw [interDelaySum_eq, hd]⟩
  · intro h
    rw [interDelaySum_eq]
    have hz : (replayChunks s).length - 1 = 0 := by omega
    rw [hz]
    simp

/-- C2 witness: with text `"a b"`, one word per chunk, and 200 ms of
streaming budget, the single inter-chunk delay sums to (2−1)·200/2 = 100. -/
theorem replay_delay_distribution_witness : interDelaySum c2s = 100 := by
  have hlen : (replayChunks c2s).length = 2 := by decide
  have h := (replay_delay_distribution c2s).1 (by rw [hlen]; norm_num)
  rw [h.2, hlen]
  show ((2 - 1 : Nat) : ℚ) * ((200 - 0) / (2 : ℚ)) = 100
  norm_num

/-- C2 counterexample: for the same two-chunk run the code's inter-chunk
delays sum to 100 ms, while `totalDurationMs - startDelayMs` is 200 ms —
the claimed sum is off by a factor of (N−1)/N, far beyond rounding. -/
theorem replay_delay_distribution_cex :
    interDelaySum c2s = 100 ∧ c2s.totalDurationMs - c2s.startDelayMs = 200 := by
  constructor
  · rw [interDelaySum_eq]
    have hlen : (replayChunks c2s).length = 2 := by decide
    rw [hlen]
    have hd : delayPerChunk c2s =
        (c2s.totalDurationMs - c2s.startDelayMs) /
          ((replayChunks c2s).length : ℚ) := by
      unfold delayPerChunk
      rw [if_pos (by rw [hlen]; norm_num)]
    rw [hd, hlen]
    show ((2 - 1 : Nat) : ℚ) * ((200 - 0) / (2 : ℚ)) = 100
    norm_num
  · show (200 : ℚ) - 0 = 200
    norm_num

/-- C8 (amended): a replay on an empty `fullText` performs the start-delay
suspension, emits a single empty-content update, finishes with no
inter-chunk delay — and then still sets the model name on the message,
unlike the claim's "no model announcement". -/
theorem replay_empty_text (start total : ℚ) (C : Nat) (m : Str)
    (_hC : 1 ≤ C) :
    replayEvents ⟨[], start, total, C, m⟩ =
      [.sleep start, .notify (.content []), .notify (.model m)]
    ∧ ∀ msg : Message,
        ((replayUpdates ⟨[], start, total, C, m⟩).foldl
          (fun x u => applyUpdate u x) msg).modelName = some m := by
  have hchunks : replayChunks ⟨[], start, total, C, m⟩ = [[' ']] := by
    unfold replayChunks splitWords
    show ((chunksOf C (List.splitOn ' ' ([] : Str))).map fun g =>
      joinSpace g ++ [' ']) = [[' ']]
    have h0 : List.splitOn ' ' ([] : Str) = [([] : Str)] := rfl
    rw [h0, chunksOf_cons]
    simp [chunksOf_nil, joinSpace]
  constructor
  · show REvent.sleep start :: replayBody ⟨[], start, total, C, m⟩ = _
    unfold replayBody
    rw [hchunks, chunkLoop_singleton]
    have ht : jsTrim (([] : Str) ++ [' ']) = [] := by decide
    rw [ht]
    rfl
  · intro msg
    rw [foldl_replayUpdates]

/-- C8 witness: the empty-text script with a 5 ms start delay yields
exactly the start sleep, one empty-content update, and the model update
setting the model name. -/
theorem replay_empty_text_witness :
    replayEvents ⟨[], 5, 9, 1, ['m']⟩ =
      [.sleep 5, .notify (.content []), .notify (.model ['m'])]
    ∧ ((replayUpdates ⟨[], 5, 9, 1, ['m']⟩).foldl
        (fun x u => applyUpdate u x) (placeholderAt 4)).modelName =
      some ['m'] :=
  ⟨(replay_empty_text 5 9 1 ['m'] (by decide)).1,
    (replay_empty_text 5 9 1 ['m'] (by decide)).2 (placeholderAt 4)⟩

/-- C8 counterexample: running the empty-text script leaves the resulting
message with `modelName = some "m"` — the model IS announced, contradicting
the claim's "no model announcement on the resulting message". -/
theorem replay_empty_text_cex :
    ((replayUpdates c8s).foldl (fun x u => applyUpdate u x)
      (placeholderAt 6)).modelName = some ['m'] := by
  decide

/-- C3 (amended): in REPLAY deliveries the model name is withheld until
the end — every notification of the run except the last is a pure content
update, and the last is exactly the model-name update.  (In LIVE deliveries
the claim fails: a `model` field is applied to the message as soon as it
arrives, possibly before the stream completes — see the counterexample.) -/
theorem model_withheld_replay (s : ReplayScript) :
    (∀ u : Update, REvent.notify u ∈ (replayBody s).dropLast →
      ∃ c, u = Update.content c)
    ∧ (replayBody s).getLast? = some (.notify (.model s.modelName)) := by
  constructor
  · intro u hu
    unfold replayBody at hu
    rw [List.dropLast_concat] at hu
    have hmem : u ∈ notifUpdates
        (chunkLoop (delayPerChunk s) (replayChunks s) []) :=
      List.mem_filterMap.mpr ⟨REvent.notify u, hu, rfl⟩
    rw [notifUpdates_chunkLoop] at hmem
    exact chunkContents_mem _ _ u hmem
  · unfold replayBody
    exact List.getLast?_concat _

/-- C3 witness: for the one-chunk script the only non-final notification
is a content update, and the final event is the model-name update. -/
theorem model_withheld_replay_witness :
    (∃ c, Update.content ['a'] = Update.content c)
    ∧ (replayBody c3s).getLast? = some (.notify (.model ['m'])) :=
  ⟨(model_withheld_replay c3s).1 (Update.content ['a']) (by decide),
    (model_withheld_replay c3s).2⟩

/-- C3 counterexample: a live stream delivering a `model` field before
`done` updates the message's model name immediately — the first UI
notification carries the model name while a content update (and the
stream's completion) are still to come. -/
theorem model_withheld_replay_cex :
    liveUpdates parseLive true true
      [dLine jsonModel ++ dLine jsonHi ++ dLine jsonDone] =
      [Update.model (("gpt-4").toList), Update.content (("Hi").toList)] := by
  decide

/-- C4: the source intends an explicit `error` payload to abort the
delivery (`throw new Error(data.error)` at line 262), but that throw is
caught by the same loop's inner catch for unparseable lines (line 290),
which swallows it.  Evaluating the code on a stream whose first frame is
an error frame: no Error notification is produced, the fixed apology never
appears, and later frames are still applied — `content "Hi"` lands on the
message after the error frame. -/
theorem swallowed_stream_error :
    liveUpdates parseLive true true
      [dLine jsonErr ++ dLine jsonHi ++ dLine jsonDone] =
      [Update.content (("Hi").toList)]
    ∧ processLine parseLive [] (dataTag ++ jsonErr) = ([], false, []) := by
  constructor <;> decide

/-- C5 (amended): a submission is rejected, with the state returned
untouched and no delivery started, when a delivery is already in flight or
when the effective message — the custom message if one is given non-empty,
else the trimmed input — is empty.  (A whitespace-only custom message is
NOT trimmed and is accepted — see the counterexample.) -/
theorem submit_rejection (st : AppState) (cm : Option Str) (now : Nat)
    (h : st.isLoading = true ∨ effectiveMessage cm st.inputValue = []) :
    submitPhase st cm now = (st, none) := by
  unfold submitPhase
  rcases h with h | h
  · simp [h]
  · simp [h]

/-- C5 witness: with a delivery in flight the submission returns the state
unchanged and starts nothing. -/
theorem submit_rejection_witness : submitPhase c5busy none 3 = (c5busy, none) :=
  submit_rejection c5busy none 3 (Or.inl rfl)

/-- C5 counterexample: the custom message `" "` is empty after trimming,
yet the submission is accepted: the conversation gains two messages and a
delivery begins — line 156 uses `customMessage || inputValue.trim()`, so a
custom message is never trimmed. -/
theorem submit_rejection_cex :
    jsTrim [' '] = []
    ∧ (submitPhase c5open (some [' ']) 7).2 = some (idOfNat 8)
    ∧ ((submitPhase c5open (some [' ']) 7).1.messages).length = 3 := by
  refine ⟨by decide, ?_, ?_⟩ <;> decide

/-- C6: a live request with a non-success status or an unreadable body
produces exactly one notification: the fixed-apology replacement, which
carries no model name; zero ContentChunk notifications are emitted. -/
theorem live_failure_single_apology (parse : Str → Option Payload)
    (ok readable : Bool) (frags : List Str)
    (h : ok = false ∨ readable = false) :
    liveUpdates parse ok readable frags = [Update.errorReplace apologyNetwork]
    ∧ contentUpdateCount (liveUpdates parse ok readable frags) = 0
    ∧ ∀ msg : Message,
        (applyUpdate (Update.errorReplace apologyNetwork) msg).content =
          apologyNetwork
        ∧ (applyUpdate (Update.errorReplace apologyNetwork) msg).modelName =
          none := by
  have hcond : (ok && readable) = false := by
    rcases h with h | h <;> simp [h]
  have hval : liveUpdates parse ok readable frags =
      [Update.errorReplace apologyNetwork] := by
    unfold liveUpdates
    rw [hcond]
    rfl
  exact ⟨hval, by rw [hval]; rfl, fun msg => ⟨rfl, rfl⟩⟩

/-- C6 witness: a failed request (status not ok) yields exactly the single
apology notification and no content notification. -/
theorem live_failure_single_apology_witness :
    liveUpdates (fun _ => none) false true [] =
      [Update.errorReplace apologyNetwork]
    ∧ contentUpdateCount (liveUpdates (fun _ => none) false true []) = 0 := by
  have h := live_failure_single_apology (fun _ => none) false true []
    (Or.inl rfl)
  exact ⟨h.1, h.2.1⟩

/-- C7 (amended): each fragment is split on line boundaries independently,
with no buffering of a partial trailing line across fragments: a line
without the `data: ` marker never produces an event or changes state, and a
payload split mid-line across two fragments is dropped — the marked partial
line fails parsing and is skipped, the unmarked remainder is discarded —
whereas the same bytes in one fragment produce the content event. -/
theorem fragment_framing (parse : Str → Option Payload) (acc line : Str)
    (h : dataTag.isPrefixOf line = false) :
    processLine parse acc line = (acc, false, [])
    ∧ liveUpdates parseLive true true [dataTag ++ jsonHiFront, jsonHiBack] =
        [Update.errorReplace apologyEmpty]
    ∧ liveUpdates parseLive true true [dataTag ++ jsonHiFront ++ jsonHiBack] =
        [Update.content (("Hi").toList)] := by
  refine ⟨?_, by decide, by decide⟩
  unfold processLine
  rw [h]
  rfl

/-- C7 witness: the line `event: x` carries no `data: ` marker and is
discarded without any event or state change; the split/joined payload
behaviors of the theorem are closed statements repeated here. -/
theorem fragment_framing_witness :
    processLine parseLive ['z'] (("event: x").toList) = (['z'], false, [])
    ∧ liveUpdates parseLive true true [dataTag ++ jsonHiFront, jsonHiBack] =
        [Update.errorReplace apologyEmpty] := by
  have h := fragment_framing parseLive ['z'] (("event: x").toList) (by decide)
  exact ⟨h.1, h.2.1⟩

/-- C7 counterexample: the payload of `data: {"content":"Hi"}` split
mid-line across two transport fragments produces zero content events (the
session falls back to the empty-result apology), while the identical bytes
arriving in one fragment produce the event — the claim's "still reassembled
and parsed as one candidate line" is false. -/
theorem fragment_framing_cex :
    contentUpdateCount
      (liveUpdates parseLive true true [dataTag ++ jsonHiFront, jsonHiBack]) = 0
    ∧ contentUpdateCount
      (liveUpdates parseLive true true
        [dataTag ++ jsonHiFront ++ jsonHiBack]) = 1 := by
  constructor <;> decide

/-- C9 (amended): resetting the conversation does not cancel an in-flight
replay run — its pending suspensions still fire and it still emits its
remaining notifications (see the counterexample) — but every such
notification targets the abandoned placeholder id, which matches no message
of the reset conversation (whose only message has id "1"), so the continued
run never mutates the new conversation state and raises no errors. -/
theorem reset_orphan_session (ts : Nat) (st : AppState) (targetId : Str)
    (evs : List REvent) (h : targetId ≠ ['1']) :
    runPendingEvents targetId evs (handleReset ts st) = handleReset ts st := by
  unfold runPendingEvents
  have hmsgs : applyAll targetId (notifUpdates evs)
      (handleReset ts st).messages = (handleReset ts st).messages := by
    apply applyAll_id
    intro m hm
    have hm1 : m = ⟨['1'], .assistant, greeting, ts, none⟩ := by
      simpa [handleReset, initialMessages] using hm
    rw [hm1]
    exact fun he => h he.symm
  rw [hmsgs]

/-- C9 witness: after a reset, replaying the whole event trace of the
abandoned two-chunk session (placeholder id "11") leaves the reset state
exactly as it was. -/
theorem reset_orphan_session_witness :
    runPendingEvents (idOfNat 11) (replayEvents c9s) (handleReset 0 c5busy) =
      handleReset 0 c5busy :=
  reset_orphan_session 0 c5busy (idOfNat 11) (replayEvents c9s) (by decide)

/-- C9 counterexample: a reset during the inter-chunk suspension of the
two-chunk run leaves two events still pending — and both notifications are
still emitted afterwards, since nothing cancels the loop: the claim's
"abandoned without emitting further notifications" is false. -/
theorem reset_orphan_session_cex :
    notifUpdates ((replayEvents c9s).drop 3) =
      [Update.content ('a' :: ' ' :: ['b']), Update.model ['m']] := by
  decide

/-- C10: every delivery-time message-list rewrite — any sequence of
content/model/error updates keyed to the placeholder id — preserves the
list's length and order and leaves every message whose id differs from the
placeholder id entirely unchanged (id, role, content, timestamp and
modelName alike, since the element itself is unchanged). -/
theorem delivery_update_frame (targetId : Str) (us : List Update)
    (msgs : List Message) :
    (applyAll targetId us msgs).length = msgs.length
    ∧ ∀ (i : Nat) (m : Message), msgs[i]? = some m → m.id ≠ targetId →
        (applyAll targetId us msgs)[i]? = some m :=
  ⟨applyAll_length targetId us msgs,
    fun i m h hid => applyAll_getElem?_ne targetId us msgs i m h hid⟩

/-- C10 witness: a content update keyed to id "9" leaves the initial
conversation (one message with id "1") with the same length and the
greeting message intact at position 0. -/
theorem delivery_update_frame_witness :
    (applyAll ['9'] [Update.content ['x']] (initialMessages 0)).length =
      (initialMessages 0).length
    ∧ (applyAll ['9'] [Update.content ['x']] (initialMessages 0))[0]? =
      some ⟨['1'], .assistant, greeting, 0, none⟩ := by
  have h := delivery_update_frame ['9'] [Update.content ['x']]
    (initialMessages 0)
  exact ⟨h.1, h.2 0 ⟨['1'], .assistant, greeting, 0, none⟩ rfl (by decide)⟩

end ZavaChat
